import Mathlib

/-!
Shallow embedding of the bank-api service (`src/app.js`).

The mock database consists of two JavaScript `Map`s (`accounts`, `sessions`)
and a global `requestCount`.  We model each `Map` as an insertion-ordered
association list (`Map.set` overwrites in place when the key exists and
appends otherwise), account records as a structure, and each Express route
handler as a pure function from store and request fields to the new store
and a response.  JavaScript truthiness of the duck-typed request fields is
modelled explicitly (`undefined`/missing is `none`; the empty string and the
integer `0` are falsy).  The two sources of run-time nondeterminism —
`Math.random()` in `/login` token generation and in the `/balance` fault
injection — are modelled as explicit oracle inputs of the corresponding
requests.  The `date` field of transaction records (wall-clock time) is not
modelled; no claim mentions it.
-/

/-- JS truthiness of an optional string field: `undefined` and `""` are falsy. -/
def jsTruthyStr : Option String → Bool
  | none => false
  | some s => s ≠ ""

/-- JS truthiness of an optional integer field: `undefined` and `0` are falsy. -/
def jsTruthyInt : Option Int → Bool
  | none => false
  | some n => n ≠ 0

/-- `Map.has` on an insertion-ordered association list. -/
def mapHas {α : Type} : List (String × α) → String → Bool
  | [], _ => false
  | p :: rest, k => p.1 = k || mapHas rest k

/-- `Map.get` on an insertion-ordered association list. -/
def mapGet {α : Type} : List (String × α) → String → Option α
  | [], _ => none
  | p :: rest, k => if p.1 = k then some p.2 else mapGet rest k

/-- Overwrite every entry under a key, keeping insertion position. -/
def mapOverwrite {α : Type} : List (String × α) → String → α → List (String × α)
  | [], _, _ => []
  | p :: rest, k, v =>
    if p.1 = k then (k, v) :: mapOverwrite rest k v
    else p :: mapOverwrite rest k v

/-- `Map.set`: overwrite in place when the key exists, append otherwise. -/
def mapSet {α : Type} (m : List (String × α)) (k : String) (v : α) :
    List (String × α) :=
  if mapHas m k then mapOverwrite m k v else m ++ [(k, v)]

/-- In-place mutation of the record object stored under a key (the JS handlers
mutate the object returned by `Map.get`, which aliases the stored object). -/
def mapUpdate {α : Type} : List (String × α) → String → (α → α) →
    List (String × α)
  | [], _, _ => []
  | p :: rest, k, f =>
    if p.1 = k then (p.1, f p.2) :: mapUpdate rest k f
    else p :: mapUpdate rest k f

/-- One ledger movement pushed onto an account's `transactions` array.
`type` is `"debit"`, `"credit"` or `"loan"`; `counterparty` carries the
`to:` field of a debit, the `from:` field of a credit, and is `none` for a
loan.  The `date` field of the source is not modelled. -/
structure Transaction where
  type : String
  amount : Int
  counterparty : Option String
  deriving Repr, DecidableEq

/-- An account record: `accounts.set(userId, { name, balance, transactions: [] })`. -/
structure Account where
  name : String
  balance : Int
  transactions : List Transaction
  deriving Repr, DecidableEq

/-- The mock database: the `accounts` and `sessions` maps. -/
structure Store where
  accounts : List (String × Account)
  sessions : List (String × String)
  deriving Repr, DecidableEq

/-- The distinct HTTP responses a handler can produce. `internal` is the 500
produced by the error-handling middleware when a handler throws. -/
inductive Response where
  | created (userId : String)
  | badRequest
  | conflict
  | notFound
  | unauthorized
  | insufficientFunds
  | rateLimited
  | internal
  | token (t : String)
  | transferOk (amount : Int)
  | loanOk (amount : Int)
  | balanceOk (b : Int)
  | statementOk (txs : List Transaction)
  deriving Repr, DecidableEq

/-- The `authenticate` middleware: rejects a missing/falsy token and a token
not present in `sessions`; otherwise resolves it to `sessions.get(token)`. -/
def authenticate (st : Store) (token : Option String) : Option String :=
  match token with
  | none => none
  | some t => if t = "" then none else mapGet st.sessions t

/-- `POST /register`: validates `userId`/`name` truthy, rejects an existing
`userId` with 409, otherwise inserts a fresh account (default balance 1000,
empty history). -/
def register (st : Store) (userId name : Option String) (balance : Option Int) :
    Store × Response :=
  if !jsTruthyStr userId || !jsTruthyStr name then (st, .badRequest)
  else if mapHas st.accounts (userId.getD "") then (st, .conflict)
  else
    ({ st with
        accounts := mapSet st.accounts (userId.getD "")
          ⟨name.getD "", balance.getD 1000, []⟩ },
      .created (userId.getD ""))

/-- `POST /login`: 404 when the account is absent, otherwise registers the
generated token (an oracle input standing for
`token_${Math.random().toString(36).slice(2)}`) in `sessions` and returns it.
The source performs no collision check: `sessions.set` overwrites. -/
def login (st : Store) (userId : Option String) (genToken : String) :
    Store × Response :=
  match userId with
  | none => (st, .notFound)
  | some u =>
    if !mapHas st.accounts u then (st, .notFound)
    else ({ st with sessions := mapSet st.sessions genToken u }, .token genToken)

/-- The validation phase of `POST /transfer` (everything before the
`await`-simulated processing delay, for an already-authenticated sender):
returns the error response it short-circuits with, or `none` to proceed. -/
def transferValidate (st : Store) (senderId : String) (toUserId : Option String)
    (amount : Option Int) : Option Response :=
  if !jsTruthyStr toUserId || !jsTruthyInt amount || amount.getD 0 ≤ 0 then
    some .badRequest
  else if !mapHas st.accounts (toUserId.getD "") then some .notFound
  else
    match mapGet st.accounts senderId with
    | none => some .internal
    | some sender =>
      if sender.balance < amount.getD 0 then some .insufficientFunds
      else none

/-- The commit phase of `POST /transfer` (after the processing delay):
`sender.balance -= amount`, push the debit, `accounts.get(toUserId).balance
+= amount`, push the credit.  The two map updates are applied in source order,
so a self-transfer hits the same record twice, exactly as the aliased JS
object does. -/
def transferCommit (st : Store) (senderId toUserId : String) (a : Int) : Store :=
  let st1 := { st with
    accounts := mapUpdate st.accounts senderId (fun acc =>
      { acc with
          balance := acc.balance - a,
          transactions := acc.transactions ++ [(⟨"debit", a, some toUserId⟩ : Transaction)] }) }
  { st1 with
    accounts := mapUpdate st1.accounts toUserId (fun acc =>
      { acc with
          balance := acc.balance + a,
          transactions := acc.transactions ++ [(⟨"credit", a, some senderId⟩ : Transaction)] }) }

/-- `POST /transfer`: authenticate, validate, then commit and answer with the
committed amount. -/
def transfer (st : Store) (token toUserId : Option String) (amount : Option Int) :
    Store × Response :=
  match authenticate st token with
  | none => (st, .unauthorized)
  | some senderId =>
    match transferValidate st senderId toUserId amount with
    | some e => (st, e)
    | none =>
      (transferCommit st senderId (toUserId.getD "") (amount.getD 0),
        .transferOk (amount.getD 0))

/-- `POST /loan`: authenticate, reject amounts outside `(0, 10000]`, credit
the account and push one `loan` transaction. A missing account record would
make the handler throw (500 via the error middleware). -/
def loan (st : Store) (token : Option String) (amount : Option Int) :
    Store × Response :=
  match authenticate st token with
  | none => (st, .unauthorized)
  | some uid =>
    if !jsTruthyInt amount || amount.getD 0 ≤ 0 || amount.getD 0 > 10000 then
      (st, .badRequest)
    else
      match mapGet st.accounts uid with
      | none => (st, .internal)
      | some _ =>
        ({ st with
            accounts := mapUpdate st.accounts uid (fun acc =>
              { acc with
                  balance := acc.balance + amount.getD 0,
                  transactions := acc.transactions ++
                    [(⟨"loan", amount.getD 0, none⟩ : Transaction)] }) },
          .loanOk (amount.getD 0))

/-- `GET /statement`: authenticate and return the account's transaction list. -/
def statementOp (st : Store) (token : Option String) : Store × Response :=
  match authenticate st token with
  | none => (st, .unauthorized)
  | some uid =>
    match mapGet st.accounts uid with
    | none => (st, .internal)
    | some acc => (st, .statementOk acc.transactions)

/-- `GET /balance`: authenticate, then a simulated random server error
(`Math.random() < 0.1`, modelled as the oracle input `fault`) throws; otherwise
return the balance. -/
def balanceOp (st : Store) (token : Option String) (fault : Bool) :
    Store × Response :=
  match authenticate st token with
  | none => (st, .unauthorized)
  | some uid =>
    if fault then (st, .internal)
    else
      match mapGet st.accounts uid with
      | none => (st, .internal)
      | some acc => (st, .balanceOk acc.balance)

/-- An inbound request, with the random oracles of `/login` and `/balance`
made explicit inputs. -/
inductive Request where
  | register (userId name : Option String) (balance : Option Int)
  | login (userId : Option String) (genToken : String)
  | transfer (token toUserId : Option String) (amount : Option Int)
  | loan (token : Option String) (amount : Option Int)
  | statement (token : Option String)
  | balance (token : Option String) (fault : Bool)
  deriving Repr, DecidableEq

/-- Route dispatch (what runs after the middleware chain admits a request). -/
def dispatch (st : Store) : Request → Store × Response
  | .register u n b => register st u n b
  | .login u t => login st u t
  | .transfer tk to? amt => transfer st tk to? amt
  | .loan tk amt => loan st tk amt
  | .statement tk => statementOp st tk
  | .balance tk f => balanceOp st tk f

/-- Full server state: the store plus the global `requestCount` read by the
rate-limiting middleware. -/
structure ServerState where
  store : Store
  requestCount : Nat
  deriving Repr, DecidableEq

/-- One inbound request through the middleware chain: `requestCount++`, then
every request whose incremented count is a multiple of 10 is rejected with
429 before reaching any route. -/
def handleRequest (s : ServerState) (r : Request) : ServerState × Response :=
  let count := s.requestCount + 1
  if count % 10 == 0 then ({ s with requestCount := count }, .rateLimited)
  else
    let (st, resp) := dispatch s.store r
    ({ store := st, requestCount := count }, resp)

/-- Process a list of inbound requests in order. -/
def runRequests (s : ServerState) : List Request → ServerState
  | [] => s
  | r :: rs => runRequests (handleRequest s r).1 rs

/-- The process-start state: empty maps, `requestCount = 0`. -/
def initState : ServerState := ⟨⟨[], []⟩, 0⟩

/-- Sum of all account balances. -/
def total (st : Store) : Int :=
  (st.accounts.map (fun p => p.2.balance)).sum

/-- Keys of an association list are pairwise distinct (holds for every store
the server can actually build, since `mapSet` only appends absent keys). -/
def keysNodup {α : Type} (m : List (String × α)) : Prop :=
  (m.map (·.1)).Nodup

instance {α : Type} (m : List (String × α)) : Decidable (keysNodup m) := by
  unfold keysNodup; infer_instance

/-- Well-formedness of a store: both maps have pairwise-distinct keys. -/
def Store.wf (st : Store) : Prop :=
  keysNodup st.accounts ∧ keysNodup st.sessions

instance (st : Store) : Decidable st.wf := by
  unfold Store.wf; infer_instance

/-- Every account balance in the store is non-negative. -/
def allNonneg (st : Store) : Prop :=
  ∀ p ∈ st.accounts, 0 ≤ p.2.balance

instance (st : Store) : Decidable (allNonneg st) := by
  unfold allNonneg; infer_instance

/-! ### Association-list lemmas -/

theorem mapGet_mem {α : Type} {m : List (String × α)} {k : String} {v : α}
    (h : mapGet m k = some v) : (k, v) ∈ m := by
  induction m with
  | nil => simp [mapGet] at h
  | cons p rest ih =>
    obtain ⟨a, b⟩ := p
    by_cases hp : a = k
    · simp [mapGet, hp] at h
      simp [hp, h]
    · simp [mapGet, hp] at h
      exact List.mem_cons_of_mem _ (ih h)

theorem mapHas_eq_isSome {α : Type} (m : List (String × α)) (k : String) :
    mapHas m k = (mapGet m k).isSome := by
  induction m with
  | nil => simp [mapHas, mapGet]
  | cons p rest ih => by_cases h : p.1 = k <;> simp [mapHas, mapGet, h, ih]

theorem mapGet_of_nodup_mem {α : Type} {m : List (String × α)} {k : String}
    {v : α} (hnd : keysNodup m) (hmem : (k, v) ∈ m) : mapGet m k = some v := by
  induction m with
  | nil => simp at hmem
  | cons p rest ih =>
    unfold keysNodup at hnd
    simp only [List.map_cons, List.nodup_cons] at hnd
    rcases List.mem_cons.mp hmem with h | h
    · subst h; simp [mapGet]
    · have hne : p.1 ≠ k := by
        intro hk
        exact hnd.1 (hk ▸ (List.mem_map.mpr ⟨(k, v), h, rfl⟩))
      simp [mapGet, hne, ih hnd.2 h]

theorem mapUpdate_keys {α : Type} (m : List (String × α)) (k : String)
    (f : α → α) : (mapUpdate m k f).map (·.1) = m.map (·.1) := by
  induction m with
  | nil => rfl
  | cons p rest ih => by_cases h : p.1 = k <;> simp [mapUpdate, h, ih]

theorem mapUpdate_of_not_has {α : Type} {m : List (String × α)} {k : String}
    (f : α → α) (h : k ∉ m.map (·.1)) : mapUpdate m k f = m := by
  induction m with
  | nil => rfl
  | cons p rest ih =>
    simp only [List.map_cons, List.mem_cons] at h
    push_neg at h
    have hne : ¬ p.1 = k := fun hk => h.1 hk.symm
    simp [mapUpdate, hne, ih h.2]

theorem mapGet_mapUpdate_self {α : Type} (m : List (String × α)) (k : String)
    (f : α → α) : mapGet (mapUpdate m k f) k = (mapGet m k).map f := by
  induction m with
  | nil => rfl
  | cons p rest ih => by_cases h : p.1 = k <;> simp [mapUpdate, mapGet, h, ih]

theorem mapGet_mapUpdate_ne {α : Type} {m : List (String × α)} {k k' : String}
    (f : α → α) (h : k' ≠ k) :
    mapGet (mapUpdate m k f) k' = mapGet m k' := by
  induction m with
  | nil => rfl
  | cons p rest ih =>
    obtain ⟨a, b⟩ := p
    by_cases hp : a = k
    · have hkk' : ¬ k = k' := fun hk => h hk.symm
      simp [mapUpdate, mapGet, hp, hkk', h, ih]
    · by_cases hpk' : a = k' <;> simp [mapUpdate, mapGet, hp, hpk', h, ih]

theorem mem_mapUpdate {α : Type} {m : List (String × α)} {k : String}
    {f : α → α} {p : String × α} (h : p ∈ mapUpdate m k f) :
    (∃ q ∈ m, q.1 = k ∧ p = (q.1, f q.2)) ∨ (p ∈ m ∧ p.1 ≠ k) := by
  induction m with
  | nil => simp [mapUpdate] at h
  | cons q rest ih =>
    by_cases hq : q.1 = k
    · simp only [mapUpdate] at h
      rw [if_pos hq] at h
      rcases List.mem_cons.mp h with h | h
      · left; exact ⟨q, List.mem_cons_self _ _, hq, h⟩
      · rcases ih h with ⟨r, hr, hrk, hpr⟩ | ⟨hmem, hne⟩
        · left; exact ⟨r, List.mem_cons_of_mem _ hr, hrk, hpr⟩
        · right; exact ⟨List.mem_cons_of_mem _ hmem, hne⟩
    · simp only [mapUpdate] at h
      rw [if_neg hq] at h
      rcases List.mem_cons.mp h with h | h
      · right; subst h; exact ⟨List.mem_cons_self _ _, hq⟩
      · rcases ih h with ⟨r, hr, hrk, hpr⟩ | ⟨hmem, hne⟩
        · left; exact ⟨r, List.mem_cons_of_mem _ hr, hrk, hpr⟩
        · right; exact ⟨List.mem_cons_of_mem _ hmem, hne⟩

theorem sum_mapUpdate {α : Type} (g : α → Int) {m : List (String × α)}
    {k : String} {v : α} (f : α → α) (hnd : keysNodup m)
    (hget : mapGet m k = some v) :
    ((mapUpdate m k f).map (fun p => g p.2)).sum
      = (m.map (fun p => g p.2)).sum - g v + g (f v) := by
  induction m with
  | nil => simp [mapGet] at hget
  | cons p rest ih =>
    unfold keysNodup at hnd
    simp only [List.map_cons, List.nodup_cons] at hnd
    by_cases h : p.1 = k
    · have hv : v = p.2 := by simp [mapGet, h] at hget; exact hget.symm
      have hrest : mapUpdate rest k f = rest :=
        mapUpdate_of_not_has f (h ▸ hnd.1)
      subst hv
      simp [mapUpdate, h, hrest]
      ring
    · have hget' : mapGet rest k = some v := by simpa [mapGet, h] using hget
      simp only [mapUpdate, h, if_neg, not_false_iff, List.map_cons,
        List.sum_cons, ih hnd.2 hget']
      ring

theorem mapHas_iff_exists_mem {α : Type} (m : List (String × α)) (k : String) :
    mapHas m k = true ↔ ∃ v, (k, v) ∈ m := by
  induction m with
  | nil => simp [mapHas]
  | cons p rest ih =>
    obtain ⟨a, b⟩ := p
    by_cases h : a = k
    · subst h; simp [mapHas]
    · have h2 : ¬ k = a := fun hk => h hk.symm
      simp [mapHas, h, h2, ih]

theorem mapSet_of_not_has {α : Type} {m : List (String × α)} {k : String}
    (v : α) (h : mapHas m k = false) : mapSet m k v = m ++ [(k, v)] := by
  simp [mapSet, h]

theorem mapOverwrite_keys {α : Type} (m : List (String × α)) (k : String)
    (v : α) : (mapOverwrite m k v).map (·.1) = m.map (·.1) := by
  induction m with
  | nil => rfl
  | cons p rest ih =>
    by_cases h : p.1 = k
    · simp [mapOverwrite, h, ih]
    · simp [mapOverwrite, h, ih]

theorem keysNodup_mapUpdate {α : Type} {m : List (String × α)} (k : String)
    (f : α → α) (h : keysNodup m) : keysNodup (mapUpdate m k f) := by
  unfold keysNodup at *
  rw [mapUpdate_keys]; exact h

theorem keysNodup_mapSet {α : Type} {m : List (String × α)} (k : String)
    (v : α) (h : keysNodup m) : keysNodup (mapSet m k v) := by
  unfold keysNodup at *
  by_cases hk : mapHas m k
  · simp only [mapSet, hk, if_pos, mapOverwrite_keys]; exact h
  · have hk' : mapHas m k = false := by simpa using hk
    simp only [mapSet, hk', Bool.false_eq_true, if_neg, not_false_iff,
      List.map_append, List.map_cons, List.map_nil]
    rw [List.nodup_append]
    refine ⟨h, List.nodup_singleton _, ?_⟩
    intro a ha hb
    simp only [List.mem_singleton] at hb
    rcases List.mem_map.mp ha with ⟨q, hq, hqk⟩
    have hq1 : q.1 = k := hqk.trans hb
    have hkm : mapHas m k = true := by
      rw [mapHas_iff_exists_mem]
      refine ⟨q.2, ?_⟩
      have hqe : q = (k, q.2) := by
        cases q
        simp only at hq1
        simp [hq1]
      rw [← hqe]; exact hq
    simp [hkm] at hk

theorem sum_mapUpdate_delta {m : List (String × Account)} {k : String}
    (f : Account → Account) (d : Int) (hnd : keysNodup m)
    (hhas : mapHas m k = true) (hf : ∀ v, (f v).balance = v.balance + d) :
    ((mapUpdate m k f).map (fun p => p.2.balance)).sum
      = (m.map (fun p => p.2.balance)).sum + d := by
  rw [mapHas_eq_isSome] at hhas
  obtain ⟨v, hv⟩ := Option.isSome_iff_exists.mp hhas
  rw [sum_mapUpdate (fun acc => acc.balance) f hnd hv, hf]
  ring

theorem allNonneg_mapUpdate {m : List (String × Account)} {k : String}
    {f : Account → Account} (hnd : keysNodup m)
    (hnn : ∀ p ∈ m, 0 ≤ p.2.balance)
    (hf : ∀ v, mapGet m k = some v → 0 ≤ (f v).balance) :
    ∀ p ∈ mapUpdate m k f, 0 ≤ p.2.balance := by
  intro p hp
  rcases mem_mapUpdate hp with ⟨q, hq, hqk, hpq⟩ | ⟨hmem, _⟩
  · have hget : mapGet m k = some q.2 := by
      apply mapGet_of_nodup_mem hnd
      have : q = (k, q.2) := by
        cases q; simp only at hqk; simp [hqk]
      rw [← this]; exact hq
    rw [hpq]
    exact hf q.2 hget
  · exact hnn p hmem

theorem mapHas_mapUpdate {α : Type} (m : List (String × α)) (k k' : String)
    (f : α → α) : mapHas (mapUpdate m k f) k' = mapHas m k' := by
  induction m with
  | nil => rfl
  | cons p rest ih => by_cases h : p.1 = k <;> simp [mapUpdate, mapHas, h, ih]

theorem jsTruthyStr_eq_true {o : Option String} (h : jsTruthyStr o = true) :
    ∃ s, o = some s ∧ s ≠ "" := by
  cases o with
  | none => simp [jsTruthyStr] at h
  | some s => exact ⟨s, rfl, by simpa [jsTruthyStr] using h⟩

theorem jsTruthyInt_eq_true {o : Option Int} (h : jsTruthyInt o = true) :
    ∃ n, o = some n ∧ n ≠ 0 := by
  cases o with
  | none => simp [jsTruthyInt] at h
  | some n => exact ⟨n, rfl, by simpa [jsTruthyInt] using h⟩

/-! ### Transfer characterization -/

theorem transferValidate_some_elim {st : Store} {senderId : String}
    {toUserId : Option String} {amount : Option Int} {e : Response}
    (h : transferValidate st senderId toUserId amount = some e) :
    e = .badRequest ∨ e = .notFound ∨ e = .internal ∨ e = .insufficientFunds := by
  unfold transferValidate at h
  split at h
  · simp only [Option.some.injEq] at h; exact Or.inl h.symm
  · split at h
    · simp only [Option.some.injEq] at h; exact Or.inr (Or.inl h.symm)
    · split at h
      · simp only [Option.some.injEq] at h; exact Or.inr (Or.inr (Or.inl h.symm))
      · split at h
        · simp only [Option.some.injEq] at h
          exact Or.inr (Or.inr (Or.inr h.symm))
        · simp at h

theorem transferValidate_none_elim {st : Store} {senderId : String}
    {toUserId : Option String} {amount : Option Int}
    (h : transferValidate st senderId toUserId amount = none) :
    ∃ toU a sender, toUserId = some toU ∧ toU ≠ "" ∧ amount = some a ∧
      0 < a ∧ mapHas st.accounts toU = true ∧
      mapGet st.accounts senderId = some sender ∧ a ≤ sender.balance := by
  unfold transferValidate at h
  split at h
  · simp at h
  next hcond =>
    split at h
    · simp at h
    next hhas =>
      split at h
      · simp at h
      next sender hsender =>
        split at h
        · simp at h
        next hbal =>
          simp only [Bool.or_eq_true, Bool.not_eq_true', decide_eq_true_eq,
            not_or, Bool.not_eq_false] at hcond
          obtain ⟨⟨hstr, hint⟩, hpos⟩ := hcond
          obtain ⟨toU, hto, htoU⟩ := jsTruthyStr_eq_true hstr
          obtain ⟨a, hamt, _⟩ := jsTruthyInt_eq_true hint
          subst hto; subst hamt
          simp only [Option.getD_some] at hpos hbal hhas ⊢
          push_neg at hpos hbal
          exact ⟨toU, a, sender, rfl, htoU, rfl, hpos, by simpa using hhas,
            hsender, hbal⟩

theorem transfer_cases (st : Store) (tk to? : Option String)
    (amt : Option Int) :
    ((transfer st tk to? amt).1 = st ∧
      ∀ a, (transfer st tk to? amt).2 ≠ .transferOk a) ∨
    (∃ senderId toU a sender,
      authenticate st tk = some senderId ∧ to? = some toU ∧ toU ≠ "" ∧
      amt = some a ∧ 0 < a ∧
      mapGet st.accounts senderId = some sender ∧ a ≤ sender.balance ∧
      mapHas st.accounts toU = true ∧
      transfer st tk to? amt = (transferCommit st senderId toU a,
        .transferOk a)) := by
  cases hauth : authenticate st tk with
  | none =>
    left
    constructor
    · simp [transfer, hauth]
    · intro a; simp [transfer, hauth]
  | some senderId =>
    cases hval : transferValidate st senderId to? amt with
    | some e =>
      left
      constructor
      · simp [transfer, hauth, hval]
      · intro a
        rcases transferValidate_some_elim hval with h1 | h1 | h1 | h1 <;>
          simp [transfer, hauth, hval, h1]
    | none =>
      right
      obtain ⟨toU, a, sender, hto, htoU, hamt, ha, hhas, hsender, hbal⟩ :=
        transferValidate_none_elim hval
      subst hto; subst hamt
      exact ⟨senderId, toU, a, sender, rfl, rfl, htoU, rfl, ha, hsender,
        hbal, hhas, by simp [transfer, hauth, hval]⟩

theorem total_transferCommit {st : Store} {senderId toU : String} {a : Int}
    (hnd : keysNodup st.accounts)
    (hs : mapHas st.accounts senderId = true)
    (hr : mapHas st.accounts toU = true) :
    total (transferCommit st senderId toU a) = total st := by
  unfold total transferCommit
  simp only
  rw [sum_mapUpdate_delta _ a (keysNodup_mapUpdate _ _ hnd)
    (by rw [mapHas_mapUpdate]; exact hr) (fun v => by simp)]
  rw [sum_mapUpdate_delta _ (-a) hnd hs (fun v => by simp [sub_eq_add_neg])]
  ring

theorem transferCommit_sessions (st : Store) (senderId toU : String) (a : Int) :
    (transferCommit st senderId toU a).sessions = st.sessions := rfl

theorem mapGet_transferCommit_sender {st : Store} {senderId toU : String}
    {a : Int} {sender : Account}
    (hget : mapGet st.accounts senderId = some sender) (hne : senderId ≠ toU) :
    mapGet (transferCommit st senderId toU a).accounts senderId =
      some { sender with
        balance := sender.balance - a,
        transactions := sender.transactions ++
          [(⟨"debit", a, some toU⟩ : Transaction)] } := by
  unfold transferCommit
  simp only
  rw [mapGet_mapUpdate_ne _ hne, mapGet_mapUpdate_self, hget]
  rfl

theorem mapGet_transferCommit_recipient {st : Store} {senderId toU : String}
    {a : Int} {recip : Account}
    (hget : mapGet st.accounts toU = some recip) (hne : senderId ≠ toU) :
    mapGet (transferCommit st senderId toU a).accounts toU =
      some { recip with
        balance := recip.balance + a,
        transactions := recip.transactions ++
          [(⟨"credit", a, some senderId⟩ : Transaction)] } := by
  unfold transferCommit
  simp only
  rw [mapGet_mapUpdate_self, mapGet_mapUpdate_ne _ (Ne.symm hne), hget]
  rfl

theorem mapGet_transferCommit_other {st : Store} {senderId toU k : String}
    {a : Int} (h1 : k ≠ senderId) (h2 : k ≠ toU) :
    mapGet (transferCommit st senderId toU a).accounts k =
      mapGet st.accounts k := by
  unfold transferCommit
  simp only
  rw [mapGet_mapUpdate_ne _ h2, mapGet_mapUpdate_ne _ h1]

theorem mapGet_transferCommit_self {st : Store} {senderId : String} {a : Int}
    {sender : Account} (hget : mapGet st.accounts senderId = some sender) :
    mapGet (transferCommit st senderId senderId a).accounts senderId =
      some { sender with
        balance := sender.balance - a + a,
        transactions := (sender.transactions ++
            [(⟨"debit", a, some senderId⟩ : Transaction)]) ++
          [(⟨"credit", a, some senderId⟩ : Transaction)] } := by
  unfold transferCommit
  simp only
  rw [mapGet_mapUpdate_self, mapGet_mapUpdate_self, hget]
  rfl

/-! ### Well-formedness is preserved by every operation -/

theorem wf_transferCommit {st : Store} (senderId toU : String) (a : Int)
    (h : st.wf) : (transferCommit st senderId toU a).wf :=
  ⟨keysNodup_mapUpdate _ _ (keysNodup_mapUpdate _ _ h.1), h.2⟩

theorem wf_register {st : Store} (u n : Option String) (b : Option Int)
    (h : st.wf) : (register st u n b).1.wf := by
  unfold register
  split
  · exact h
  · split
    · exact h
    · exact ⟨keysNodup_mapSet _ _ h.1, h.2⟩

theorem wf_login {st : Store} (u : Option String) (t : String)
    (h : st.wf) : (login st u t).1.wf := by
  unfold login
  split
  · exact h
  · split
    · exact h
    · exact ⟨h.1, keysNodup_mapSet _ _ h.2⟩

theorem wf_transfer {st : Store} (tk to? : Option String) (amt : Option Int)
    (h : st.wf) : (transfer st tk to? amt).1.wf := by
  rcases transfer_cases st tk to? amt with ⟨heq, _⟩ |
    ⟨sid, toU, a, sender, _, _, _, _, _, _, _, _, heq⟩
  · rw [heq]; exact h
  · rw [heq]; exact wf_transferCommit _ _ _ h

theorem wf_loan {st : Store} (tk : Option String) (amt : Option Int)
    (h : st.wf) : (loan st tk amt).1.wf := by
  unfold loan
  split
  · exact h
  · split
    · exact h
    · split
      · exact h
      · exact ⟨keysNodup_mapUpdate _ _ h.1, h.2⟩

theorem wf_statementOp {st : Store} (tk : Option String)
    (h : st.wf) : (statementOp st tk).1.wf := by
  unfold statementOp
  split
  · exact h
  · split
    · exact h
    · exact h

theorem wf_balanceOp {st : Store} (tk : Option String) (f : Bool)
    (h : st.wf) : (balanceOp st tk f).1.wf := by
  unfold balanceOp
  split
  · exact h
  · split
    · exact h
    · split
      · exact h
      · exact h

theorem wf_dispatch (st : Store) (r : Request) (h : st.wf) :
    (dispatch st r).1.wf := by
  cases r with
  | register u n b => exact wf_register u n b h
  | login u t => exact wf_login u t h
  | transfer tk to? amt => exact wf_transfer tk to? amt h
  | loan tk amt => exact wf_loan tk amt h
  | statement tk => exact wf_statementOp tk h
  | balance tk f => exact wf_balanceOp tk f h

theorem wf_handleRequest (s : ServerState) (r : Request) (h : s.store.wf) :
    (handleRequest s r).1.store.wf := by
  unfold handleRequest
  by_cases hc : (s.requestCount + 1) % 10 == 0
  · simp only [hc, if_pos]; exact h
  · simp only [hc, Bool.false_eq_true, if_neg, not_false_iff]
    exact wf_dispatch s.store r h

theorem wf_runRequests (s : ServerState) (rs : List Request)
    (h : s.store.wf) : (runRequests s rs).store.wf := by
  induction rs generalizing s with
  | nil => exact h
  | cons r rest ih => exact ih _ (wf_handleRequest s r h)

/-! ### No route handler produces the gate's 429 response -/

theorem register_resp_ne_rateLimited (st : Store) (u n : Option String)
    (b : Option Int) : (register st u n b).2 ≠ .rateLimited := by
  unfold register
  split
  · simp
  · split <;> simp

theorem login_resp_ne_rateLimited (st : Store) (u : Option String)
    (t : String) : (login st u t).2 ≠ .rateLimited := by
  unfold login
  split
  · simp
  · split <;> simp

theorem transfer_resp_ne_rateLimited (st : Store) (tk to? : Option String)
    (amt : Option Int) : (transfer st tk to? amt).2 ≠ .rateLimited := by
  cases hauth : authenticate st tk with
  | none => simp [transfer, hauth]
  | some sid =>
    cases hval : transferValidate st sid to? amt with
    | some e =>
      rcases transferValidate_some_elim hval with h | h | h | h <;>
        simp [transfer, hauth, hval, h]
    | none => simp [transfer, hauth, hval]

theorem loan_resp_ne_rateLimited (st : Store) (tk : Option String)
    (amt : Option Int) : (loan st tk amt).2 ≠ .rateLimited := by
  unfold loan
  split
  · simp
  · split
    · simp
    · split <;> simp

theorem statementOp_resp_ne_rateLimited (st : Store) (tk : Option String) :
    (statementOp st tk).2 ≠ .rateLimited := by
  unfold statementOp
  split
  · simp
  · split <;> simp

theorem balanceOp_resp_ne_rateLimited (st : Store) (tk : Option String)
    (f : Bool) : (balanceOp st tk f).2 ≠ .rateLimited := by
  unfold balanceOp
  split
  · simp
  · split
    · simp
    · split <;> simp

theorem dispatch_resp_ne_rateLimited (st : Store) (r : Request) :
    (dispatch st r).2 ≠ .rateLimited := by
  cases r with
  | register u n b => exact register_resp_ne_rateLimited st u n b
  | login u t => exact login_resp_ne_rateLimited st u t
  | transfer tk to? amt => exact transfer_resp_ne_rateLimited st tk to? amt
  | loan tk amt => exact loan_resp_ne_rateLimited st tk amt
  | statement tk => exact statementOp_resp_ne_rateLimited st tk
  | balance tk f => exact balanceOp_resp_ne_rateLimited st tk f

theorem handleRequest_count (s : ServerState) (r : Request) :
    (handleRequest s r).1.requestCount = s.requestCount + 1 := by
  unfold handleRequest
  by_cases hc : (s.requestCount + 1) % 10 == 0 <;> simp [hc]

theorem runRequests_count (s : ServerState) (rs : List Request) :
    (runRequests s rs).requestCount = s.requestCount + rs.length := by
  induction rs generalizing s with
  | nil => simp [runRequests]
  | cons r rest ih =>
    simp [runRequests, ih, handleRequest_count]
    omega

/-- C6: the admission gate rejects an inbound request with the rate-limit
error exactly when the request's position in the global stream (one-based:
the value of the incremented global counter, counted across all endpoints
and identities) is a multiple of 10; the counter increments by one on every
request — admitted or rejected — and processing any request list adds
exactly its length, never resetting. -/
theorem c6_admission_gate (s : ServerState) (r : Request) (rs : List Request) :
    ((handleRequest s r).2 = .rateLimited ↔ (s.requestCount + 1) % 10 = 0) ∧
    (handleRequest s r).1.requestCount = s.requestCount + 1 ∧
    (runRequests s rs).requestCount = s.requestCount + rs.length := by
  refine ⟨?_, handleRequest_count s r, runRequests_count s rs⟩
  unfold handleRequest
  by_cases hc : (s.requestCount + 1) % 10 = 0
  · simp [hc]
  · have hc' : ((s.requestCount + 1) % 10 == 0) = false := by
      simpa using hc
    simp only [hc', Bool.false_eq_true, if_neg, not_false_iff]
    constructor
    · intro h
      exact absurd h (dispatch_resp_ne_rateLimited s.store r)
    · intro h; exact absurd h hc

/-- C8: when an account with the given `userId` already exists, a register
call for that `userId` leaves the entire store (balances, names, histories,
sessions) exactly unchanged, whatever the other fields are; and when the
call is well-formed (`userId` and `name` non-falsy, as the route requires
before the duplicate check), it fails with `Conflict`. -/
theorem c8_register_conflict (st : Store) (u : String) (n : Option String)
    (b : Option Int) (hhas : mapHas st.accounts u = true) :
    (register st (some u) n b).1 = st ∧
    mapGet (register st (some u) n b).1.accounts u = mapGet st.accounts u ∧
    (u ≠ "" → jsTruthyStr n = true → (register st (some u) n b).2 = .conflict) := by
  by_cases hcond : (!jsTruthyStr (some u) || !jsTruthyStr n) = true
  · unfold register
    rw [if_pos hcond]
    refine ⟨rfl, rfl, ?_⟩
    intro hu hn
    have hu' : jsTruthyStr (some u) = true := by simp [jsTruthyStr, hu]
    rw [hu', hn] at hcond
    simp at hcond
  · unfold register
    rw [if_neg hcond]
    simp [Option.getD_some, hhas]

theorem c8_register_conflict_witness :
    mapHas ({ accounts := [("alice", ⟨"A", 1000, []⟩)], sessions := [] } :
      Store).accounts "alice" = true ∧
    (register { accounts := [("alice", ⟨"A", 1000, []⟩)], sessions := [] }
        (some "alice") (some "B") (some 7)).1 =
      { accounts := [("alice", ⟨"A", 1000, []⟩)], sessions := [] } ∧
    (register { accounts := [("alice", ⟨"A", 1000, []⟩)], sessions := [] }
        (some "alice") (some "B") (some 7)).2 = .conflict := by
  refine ⟨by decide, ?_, ?_⟩
  · exact (c8_register_conflict _ "alice" (some "B") (some 7) (by decide)).1
  · exact (c8_register_conflict _ "alice" (some "B") (some 7) (by decide)).2.2
      (by decide) (by decide)

/-! ### Transfer failure branches -/

theorem transferValidate_badRequest {st : Store} {sid : String}
    {to? : Option String} {amt : Option Int}
    (h : ¬ jsTruthyStr to? = true ∨ ¬ ∃ a, amt = some a ∧ 0 < a) :
    transferValidate st sid to? amt = some .badRequest := by
  unfold transferValidate
  split
  · rfl
  next hcond =>
    exfalso
    simp only [Bool.or_eq_true, Bool.not_eq_true', decide_eq_true_eq, not_or,
      Bool.not_eq_false] at hcond
    obtain ⟨⟨hstr, hint⟩, hle⟩ := hcond
    rcases h with h | h
    · exact h hstr
    · obtain ⟨a, ha, _⟩ := jsTruthyInt_eq_true hint
      subst ha
      simp only [Option.getD_some] at hle
      push_neg at hle
      exact h ⟨a, rfl, hle⟩

theorem transferValidate_notFound {st : Store} {sid : String}
    {to? : Option String} {amt : Option Int} {toU : String} {a : Int}
    (hto : to? = some toU) (htoU : toU ≠ "") (hamt : amt = some a) (ha0 : 0 < a)
    (hhas : mapHas st.accounts toU = false) :
    transferValidate st sid to? amt = some .notFound := by
  subst hto; subst hamt
  unfold transferValidate
  split
  next hcond =>
    exfalso
    simp only [Bool.or_eq_true, Bool.not_eq_true', decide_eq_true_eq,
      Option.getD_some] at hcond
    rcases hcond with (h | h) | h
    · simp [jsTruthyStr, htoU] at h
    · simp [jsTruthyInt, ha0.ne'] at h
    · omega
  · split
    · rfl
    next hh =>
      exfalso
      simp only [Option.getD_some, Bool.not_eq_true'] at hh
      rw [hhas] at hh
      simp at hh

theorem transferValidate_insufficient {st : Store} {sid : String}
    {to? : Option String} {amt : Option Int} {toU : String} {a : Int}
    {sender : Account}
    (hto : to? = some toU) (htoU : toU ≠ "") (hamt : amt = some a) (ha0 : 0 < a)
    (hhas : mapHas st.accounts toU = true)
    (hsender : mapGet st.accounts sid = some sender)
    (hbal : sender.balance < a) :
    transferValidate st sid to? amt = some .insufficientFunds := by
  subst hto; subst hamt
  unfold transferValidate
  split
  next hcond =>
    exfalso
    simp only [Bool.or_eq_true, Bool.not_eq_true', decide_eq_true_eq,
      Option.getD_some] at hcond
    rcases hcond with (h | h) | h
    · simp [jsTruthyStr, htoU] at h
    · simp [jsTruthyInt, ha0.ne'] at h
    · omega
  · split
    next hh =>
      exfalso
      simp only [Option.getD_some] at hh
      rw [hhas] at hh
      simp at hh
    · rw [hsender]
      simp only [Option.getD_some]
      rw [if_pos (by exact_mod_cast hbal)]

/-- C4: for a transfer request the failure checks run in this order —
`Unauthorized` when the session token does not resolve, then `BadRequest`
when `toUserId` is falsy or the amount is not a positive value, then
`NotFound` when the recipient account does not exist, then
`InsufficientFunds` when the sender's balance is below the amount — and in
every failure case the returned store is exactly the input store: no
balance and no transaction history is mutated. -/
theorem c4_transfer_error_order (st : Store) (tk to? : Option String)
    (amt : Option Int) :
    (authenticate st tk = none → transfer st tk to? amt = (st, .unauthorized)) ∧
    (∀ sid, authenticate st tk = some sid →
      ((¬ jsTruthyStr to? = true ∨ ¬ ∃ a, amt = some a ∧ 0 < a) →
        transfer st tk to? amt = (st, .badRequest)) ∧
      (∀ toU a, to? = some toU → toU ≠ "" → amt = some a → 0 < a →
        mapHas st.accounts toU = false →
        transfer st tk to? amt = (st, .notFound)) ∧
      (∀ toU a sender, to? = some toU → toU ≠ "" → amt = some a → 0 < a →
        mapHas st.accounts toU = true →
        mapGet st.accounts sid = some sender → sender.balance < a →
        transfer st tk to? amt = (st, .insufficientFunds))) := by
  constructor
  · intro h
    simp [transfer, h]
  · intro sid hauth
    refine ⟨?_, ?_, ?_⟩
    · intro h
      simp [transfer, hauth, @transferValidate_badRequest st sid to? amt h]
    · intro toU a hto htoU hamt ha0 hhas
      simp [transfer, hauth, transferValidate_notFound hto htoU hamt ha0 hhas]
    · intro toU a sender hto htoU hamt ha0 hhas hsender hbal
      simp [transfer, hauth,
        transferValidate_insufficient hto htoU hamt ha0 hhas hsender hbal]

/-- A small concrete store used to instantiate hypotheses of the claim
theorems: two accounts with balance 1000 and a live session for each. -/
def stW : Store :=
  { accounts := [("alice", ⟨"A", 1000, []⟩), ("bob", ⟨"B", 1000, []⟩)],
    sessions := [("tokA", "alice"), ("tokB", "bob")] }

theorem c4_transfer_error_order_witness :
    authenticate stW (some "tokA") = some "alice" ∧
    transfer stW (some "tokA") (some "bob") (some 2000) =
      (stW, .insufficientFunds) := by
  refine ⟨by decide, ?_⟩
  exact ((c4_transfer_error_order stW (some "tokA") (some "bob")
      (some 2000)).2 "alice" (by decide)).2.2 "bob" 2000 ⟨"A", 1000, []⟩
    rfl (by decide) rfl (by decide) (by decide) (by decide) (by decide)

/-- C5: with a valid session whose account exists, a loan fails `BadRequest`
exactly when the amount is not an integer in `(0, 10000]`; otherwise it
returns `loanOk`, adds exactly the amount to the account's balance, appends
exactly one `loan` transaction of that amount to the account's history, and
leaves every other account and the session map unchanged. -/
theorem c5_loan (st : Store) (tk : Option String) (amt : Option Int)
    (uid : String) (acc : Account)
    (hauth : authenticate st tk = some uid)
    (hacc : mapGet st.accounts uid = some acc) :
    ((loan st tk amt).2 = .badRequest ↔
      ¬ ∃ a, amt = some a ∧ 0 < a ∧ a ≤ 10000) ∧
    (∀ a, amt = some a → 0 < a → a ≤ 10000 →
      mapGet (loan st tk amt).1.accounts uid =
        some { acc with
          balance := acc.balance + a,
          transactions := acc.transactions ++
            [(⟨"loan", a, none⟩ : Transaction)] } ∧
      (loan st tk amt).2 = .loanOk a ∧
      (∀ k, k ≠ uid →
        mapGet (loan st tk amt).1.accounts k = mapGet st.accounts k) ∧
      (loan st tk amt).1.sessions = st.sessions) := by
  by_cases hgood : ∃ a, amt = some a ∧ 0 < a ∧ a ≤ 10000
  · obtain ⟨a, hamt, ha0, ha10⟩ := hgood
    subst hamt
    have hne : a ≠ 0 := ha0.ne'
    have hnle : ¬ a ≤ 0 := not_le.mpr ha0
    have hngt : ¬ a > 10000 := not_lt.mpr ha10
    have hloan : loan st tk (some a) =
        ({ st with accounts := mapUpdate st.accounts uid (fun acc' =>
            { acc' with
              balance := acc'.balance + a,
              transactions := acc'.transactions ++
                [(⟨"loan", a, none⟩ : Transaction)] }) },
          .loanOk a) := by
      simp [loan, hauth, hacc, jsTruthyInt, hne, hnle, hngt]
    constructor
    · rw [hloan]
      constructor
      · intro hb; cases hb
      · intro hb; exact absurd ⟨a, rfl, ha0, ha10⟩ hb
    · intro a' ha' _ _
      have haa : a = a' := by injection ha'
      subst haa
      rw [hloan]
      refine ⟨?_, rfl, ?_, rfl⟩
      · simp only
        rw [mapGet_mapUpdate_self, hacc]
        rfl
      · intro k hk
        simp only
        rw [mapGet_mapUpdate_ne _ hk]
  · have hbadG : ¬ ∃ a, amt = some a ∧ 0 < a ∧ a ≤ 10000 := hgood
    have hloan : loan st tk amt = (st, .badRequest) := by
      cases amt with
      | none => simp [loan, hauth, jsTruthyInt]
      | some a =>
        have h' : ¬ (0 < a ∧ a ≤ 10000) := fun hc =>
          hgood ⟨a, rfl, hc.1, hc.2⟩
        by_cases h0 : a ≤ 0
        · by_cases hz : a = 0
          · simp [loan, hauth, jsTruthyInt, hz]
          · simp [loan, hauth, jsTruthyInt, hz, h0]
        · push_neg at h0
          have h10 : 10000 < a := by
            by_contra hx
            push_neg at hx
            exact h' ⟨h0, hx⟩
          simp [loan, hauth, jsTruthyInt, h0.ne', h10]
    constructor
    · rw [hloan]
      simp [hbadG]
    · intro a hamt ha0 ha10
      exact absurd ⟨a, hamt, ha0, ha10⟩ hbadG

theorem c5_loan_witness :
    (loan stW (some "tokA") (some 15000)).2 = .badRequest ∧
    mapGet (loan stW (some "tokA") (some 5000)).1.accounts "alice" =
      some ⟨"A", 6000, [⟨"loan", 5000, none⟩]⟩ ∧
    (loan stW (some "tokA") (some 5000)).2 = .loanOk 5000 := by
  refine ⟨?_, ?_, ?_⟩
  · have hno : ¬ ∃ a, (some (15000 : Int)) = some a ∧ 0 < a ∧ a ≤ 10000 := by
      intro h
      rcases h with ⟨a, ha, _, h10⟩
      injection ha with ha'
      omega
    exact (c5_loan stW (some "tokA") (some 15000) "alice" ⟨"A", 1000, []⟩
      (by decide) (by decide)).1.mpr hno
  · have h := (c5_loan stW (some "tokA") (some 5000) "alice" ⟨"A", 1000, []⟩
      (by decide) (by decide)).2 5000 rfl (by decide) (by decide)
    exact h.1
  · have h := (c5_loan stW (some "tokA") (some 5000) "alice" ⟨"A", 1000, []⟩
      (by decide) (by decide)).2 5000 rfl (by decide) (by decide)
    exact h.2.1

/-- C3: every successful transfer commits, as one unit, exactly the two
balance updates and the two history appends of the source (the returned
state is literally `transferCommit`, the sequential application of the four
mutations), and returns the committed amount.  For distinct sender and
recipient this spells out to: sender balance decremented by the amount with
one debit transaction (counterparty the recipient) appended, recipient
balance incremented by the amount with one credit transaction (counterparty
the sender) appended, every other account and the session map untouched. -/
theorem c3_transfer_atomic_commit (st : Store) (tk : Option String)
    (toU : String) (a : Int) (sid : String) (sender : Account)
    (hauth : authenticate st tk = some sid)
    (hsender : mapGet st.accounts sid = some sender)
    (hsuccess : (transfer st tk (some toU) (some a)).2 = .transferOk a) :
    transfer st tk (some toU) (some a) =
      (transferCommit st sid toU a, .transferOk a) ∧
    (∀ recip, mapGet st.accounts toU = some recip → sid ≠ toU →
      mapGet (transferCommit st sid toU a).accounts sid =
        some { sender with
          balance := sender.balance - a,
          transactions := sender.transactions ++
            [(⟨"debit", a, some toU⟩ : Transaction)] } ∧
      mapGet (transferCommit st sid toU a).accounts toU =
        some { recip with
          balance := recip.balance + a,
          transactions := recip.transactions ++
            [(⟨"credit", a, some sid⟩ : Transaction)] }) ∧
    (∀ k, k ≠ sid → k ≠ toU →
      mapGet (transferCommit st sid toU a).accounts k = mapGet st.accounts k) ∧
    (transferCommit st sid toU a).sessions = st.sessions := by
  rcases transfer_cases st tk (some toU) (some a) with ⟨_, hne⟩ |
    ⟨sid', toU', a', sender', hauth', hto, _, hamt, _, hsender', _, _, heq⟩
  · exact absurd hsuccess (hne a)
  · injection hto with htoU'
    injection hamt with hamt'
    subst htoU'
    subst hamt'
    rw [hauth] at hauth'
    injection hauth' with hsid'
    subst hsid'
    rw [hsender] at hsender'
    injection hsender' with hsender''
    subst hsender''
    refine ⟨heq, ?_, ?_, rfl⟩
    · intro recip hrecip hne
      exact ⟨mapGet_transferCommit_sender hsender hne,
        mapGet_transferCommit_recipient hrecip hne⟩
    · intro k hk1 hk2
      exact mapGet_transferCommit_other hk1 hk2

theorem c3_transfer_atomic_commit_witness :
    (transfer stW (some "tokA") (some "bob") (some 500)).2 = .transferOk 500 ∧
    mapGet (transferCommit stW "alice" "bob" 500).accounts "alice" =
      some ⟨"A", 500, [⟨"debit", 500, some "bob"⟩]⟩ ∧
    mapGet (transferCommit stW "alice" "bob" 500).accounts "bob" =
      some ⟨"B", 1500, [⟨"credit", 500, some "alice"⟩]⟩ := by
  have h := c3_transfer_atomic_commit stW (some "tokA") "bob" 500 "alice"
    ⟨"A", 1000, []⟩ (by decide) (by decide) (by decide)
  have h2 := h.2.1 ⟨"B", 1000, []⟩ (by decide) (by decide)
  exact ⟨by decide, h2.1, h2.2⟩

/-- C10: a self-transfer (recipient = sender) with a valid session, positive
amount and sufficient balance succeeds with the committed amount, leaves the
account's balance exactly unchanged (the debit and credit hit the same
record), and appends both the debit and the credit transaction of that
amount to the same account's history, each with the account itself as
counterparty; no other account and no session is touched. -/
theorem c10_self_transfer (st : Store) (tk : Option String) (u : String)
    (a : Int) (acc : Account)
    (hauth : authenticate st tk = some u) (hu : u ≠ "")
    (hacc : mapGet st.accounts u = some acc)
    (ha : 0 < a) (hbal : a ≤ acc.balance) :
    (transfer st tk (some u) (some a)).2 = .transferOk a ∧
    mapGet (transfer st tk (some u) (some a)).1.accounts u =
      some { acc with
        transactions := acc.transactions ++
          [(⟨"debit", a, some u⟩ : Transaction),
           (⟨"credit", a, some u⟩ : Transaction)] } ∧
    (∀ k, k ≠ u →
      mapGet (transfer st tk (some u) (some a)).1.accounts k =
        mapGet st.accounts k) ∧
    (transfer st tk (some u) (some a)).1.sessions = st.sessions := by
  have hval : transferValidate st u (some u) (some a) = none := by
    unfold transferValidate
    have hhas : mapHas st.accounts u = true := by
      rw [mapHas_eq_isSome, hacc]; rfl
    simp [jsTruthyStr, jsTruthyInt, hu, ha.ne', not_le.mpr ha, hhas, hacc,
      not_lt.mpr hbal]
  have heq : transfer st tk (some u) (some a) =
      (transferCommit st u u a, .transferOk a) := by
    simp [transfer, hauth, hval]
  rw [heq]
  refine ⟨rfl, ?_, ?_, rfl⟩
  · rw [mapGet_transferCommit_self hacc]
    simp [sub_add_cancel]
  · intro k hk
    exact mapGet_transferCommit_other hk hk

theorem c10_self_transfer_witness :
    (transfer stW (some "tokA") (some "alice") (some 300)).2 =
      .transferOk 300 ∧
    mapGet (transfer stW (some "tokA") (some "alice") (some 300)).1.accounts
        "alice" =
      some ⟨"A", 1000,
        [⟨"debit", 300, some "alice"⟩, ⟨"credit", 300, some "alice"⟩]⟩ := by
  have h := c10_self_transfer stW (some "tokA") "alice" 300 ⟨"A", 1000, []⟩
    (by decide) (by decide) (by decide) (by decide) (by decide)
  exact ⟨h.1, h.2.1⟩

/-- A sequence of `/transfer` calls, threading the store. -/
def runTransfers (st : Store) :
    List (Option String × Option String × Option Int) → Store
  | [] => st
  | c :: rest => runTransfers (transfer st c.1 c.2.1 c.2.2).1 rest

theorem total_transfer (st : Store) (hwf : st.wf) (tk to? : Option String)
    (amt : Option Int) : total (transfer st tk to? amt).1 = total st := by
  rcases transfer_cases st tk to? amt with ⟨heq, _⟩ |
    ⟨sid, toU, a, sender, _, _, _, _, _, hsender, _, hhas, heq⟩
  · rw [heq]
  · rw [heq]
    exact total_transferCommit hwf.1
      (by rw [mapHas_eq_isSome, hsender]; rfl) hhas

theorem total_runTransfers (st : Store) (hwf : st.wf)
    (calls : List (Option String × Option String × Option Int)) :
    total (runTransfers st calls) = total st := by
  induction calls generalizing st with
  | nil => rfl
  | cons c rest ih =>
    rw [runTransfers, ih _ (wf_transfer _ _ _ hwf), total_transfer st hwf]

/-- C1: on a well-formed store, the sum of all account balances is invariant
under any sequence of transfer calls (in particular any sequence of
successful ones) and under each single successful transfer; a successful
transfer between distinct accounts decreases the sender's balance by exactly
the amount and increases the recipient's by exactly the amount, and a
successful self-transfer (where the decrement and increment compose on the
same record) leaves the balance exactly as it was. -/
theorem c1_conservation (st : Store) (hwf : st.wf) :
    (∀ calls, total (runTransfers st calls) = total st) ∧
    (∀ tk to? amt a, (transfer st tk to? amt).2 = .transferOk a →
      total (transfer st tk to? amt).1 = total st) ∧
    (∀ tk toU a sid sender recip,
      authenticate st tk = some sid →
      mapGet st.accounts sid = some sender →
      mapGet st.accounts toU = some recip →
      (transfer st tk (some toU) (some a)).2 = .transferOk a →
      sid ≠ toU →
      (mapGet (transfer st tk (some toU) (some a)).1.accounts sid).map
        Account.balance = some (sender.balance - a) ∧
      (mapGet (transfer st tk (some toU) (some a)).1.accounts toU).map
        Account.balance = some (recip.balance + a)) ∧
    (∀ tk u a acc,
      authenticate st tk = some u →
      mapGet st.accounts u = some acc →
      (transfer st tk (some u) (some a)).2 = .transferOk a →
      (mapGet (transfer st tk (some u) (some a)).1.accounts u).map
        Account.balance = some acc.balance) := by
  refine ⟨total_runTransfers st hwf, ?_, ?_, ?_⟩
  · intro tk to? amt a _
    exact total_transfer st hwf tk to? amt
  · intro tk toU a sid sender recip hauth hsender hrecip hsuccess hne
    rcases transfer_cases st tk (some toU) (some a) with ⟨_, hno⟩ |
      ⟨sid', toU', a', sender', hauth', hto, _, hamt, _, hsender', _, _, heq⟩
    · exact absurd hsuccess (hno a)
    · injection hto with htoU'
      injection hamt with hamt'
      subst htoU'; subst hamt'
      rw [hauth] at hauth'
      injection hauth' with hsid'
      subst hsid'
      rw [heq]
      simp only
      rw [mapGet_transferCommit_sender hsender hne,
        mapGet_transferCommit_recipient hrecip hne]
      exact ⟨rfl, rfl⟩
  · intro tk u a acc hauth hacc hsuccess
    rcases transfer_cases st tk (some u) (some a) with ⟨_, hno⟩ |
      ⟨sid', toU', a', sender', hauth', hto, _, hamt, _, hsender', _, _, heq⟩
    · exact absurd hsuccess (hno a)
    · injection hto with htoU'
      injection hamt with hamt'
      subst htoU'; subst hamt'
      rw [hauth] at hauth'
      injection hauth' with hsid'
      subst hsid'
      rw [heq]
      simp only
      rw [mapGet_transferCommit_self hacc]
      simp

theorem c1_conservation_witness :
    stW.wf ∧
    total (runTransfers stW
      [(some "tokA", some "bob", some 500),
       (some "tokB", some "alice", some 200)]) = total stW :=
  ⟨by decide, (c1_conservation stW (by decide)).1
    [(some "tokA", some "bob", some 500),
     (some "tokB", some "alice", some 200)]⟩

/-! ### Balance non-negativity -/

theorem login_accounts (st : Store) (u : Option String) (t : String) :
    (login st u t).1.accounts = st.accounts := by
  unfold login
  split
  · rfl
  · split <;> rfl

theorem statementOp_state (st : Store) (tk : Option String) :
    (statementOp st tk).1 = st := by
  unfold statementOp
  split
  · rfl
  · split <;> rfl

theorem balanceOp_state (st : Store) (tk : Option String) (f : Bool) :
    (balanceOp st tk f).1 = st := by
  unfold balanceOp
  split
  · rfl
  · split
    · rfl
    · split <;> rfl

theorem allNonneg_register {st : Store} (u n : Option String) (b : Option Int)
    (hnn : allNonneg st) (hb : 0 ≤ b.getD 1000) :
    allNonneg (register st u n b).1 := by
  unfold register
  split
  · exact hnn
  · split
    · exact hnn
    next hhas =>
      intro p hp
      simp only at hp
      rw [mapSet_of_not_has _ (by simpa using hhas)] at hp
      rcases List.mem_append.mp hp with h | h
      · exact hnn p h
      · simp only [List.mem_singleton] at h
        subst h
        exact hb

theorem allNonneg_transfer {st : Store} (hwf : st.wf) (hnn : allNonneg st)
    (tk to? : Option String) (amt : Option Int) :
    allNonneg (transfer st tk to? amt).1 := by
  rcases transfer_cases st tk to? amt with ⟨heq, _⟩ |
    ⟨sid, toU, a, sender, _, _, _, _, ha, hsender, hbal, hhas, heq⟩
  · rw [heq]; exact hnn
  · rw [heq]
    unfold allNonneg transferCommit
    simp only
    have h1 : ∀ p ∈ mapUpdate st.accounts sid (fun acc =>
        { acc with
          balance := acc.balance - a,
          transactions := acc.transactions ++
            [(⟨"debit", a, some toU⟩ : Transaction)] }), 0 ≤ p.2.balance := by
      apply allNonneg_mapUpdate hwf.1 hnn
      intro v hv
      rw [hsender] at hv
      injection hv with hv
      subst hv
      simp only
      omega
    apply allNonneg_mapUpdate (keysNodup_mapUpdate _ _ hwf.1) h1
    intro v hv
    have hmem := mapGet_mem hv
    have h0 : 0 ≤ v.balance := h1 _ hmem
    simp only
    omega

theorem allNonneg_loan {st : Store} (hwf : st.wf) (hnn : allNonneg st)
    (tk : Option String) (amt : Option Int) :
    allNonneg (loan st tk amt).1 := by
  unfold loan
  split
  · exact hnn
  · split
    · exact hnn
    next hcond =>
      split
      · exact hnn
      · intro p hp
        simp only at hp
        simp only [Bool.or_eq_true, Bool.not_eq_true', decide_eq_true_eq,
          not_or, Bool.not_eq_false] at hcond
        obtain ⟨⟨_, hle⟩, _⟩ := hcond
        push_neg at hle
        refine allNonneg_mapUpdate hwf.1 hnn ?_ p hp
        intro v hv
        have h0 : 0 ≤ v.balance := hnn _ (mapGet_mem hv)
        simp only
        omega

/-- Requests whose register initial balance (default 1000) is non-negative;
the source register route accepts any balance, so this is the restriction
under which the no-negative-balance invariant actually holds. -/
def registerNonneg : Request → Prop
  | .register _ _ b => 0 ≤ b.getD 1000
  | _ => True

instance (r : Request) : Decidable (registerNonneg r) := by
  cases r with
  | register u n b => exact inferInstanceAs (Decidable (0 ≤ b.getD 1000))
  | login u t => exact inferInstanceAs (Decidable True)
  | transfer tk to? amt => exact inferInstanceAs (Decidable True)
  | loan tk amt => exact inferInstanceAs (Decidable True)
  | statement tk => exact inferInstanceAs (Decidable True)
  | balance tk f => exact inferInstanceAs (Decidable True)

theorem allNonneg_dispatch (st : Store) (r : Request) (hwf : st.wf)
    (hnn : allNonneg st) (hr : registerNonneg r) :
    allNonneg (dispatch st r).1 := by
  cases r with
  | register u n b => exact allNonneg_register u n b hnn hr
  | login u t =>
    intro p hp
    rw [show (dispatch st (.login u t)).1.accounts = st.accounts from
      login_accounts st u t] at hp
    exact hnn p hp
  | transfer tk to? amt => exact allNonneg_transfer hwf hnn tk to? amt
  | loan tk amt => exact allNonneg_loan hwf hnn tk amt
  | statement tk =>
    rw [show (dispatch st (.statement tk)).1 = st from statementOp_state st tk]
    exact hnn
  | balance tk f =>
    rw [show (dispatch st (.balance tk f)).1 = st from balanceOp_state st tk f]
    exact hnn

theorem allNonneg_handleRequest (s : ServerState) (r : Request)
    (hwf : s.store.wf) (hnn : allNonneg s.store) (hr : registerNonneg r) :
    allNonneg (handleRequest s r).1.store := by
  unfold handleRequest
  by_cases hc : (s.requestCount + 1) % 10 == 0
  · simp only [hc, if_pos]; exact hnn
  · simp only [hc, Bool.false_eq_true, if_neg, not_false_iff]
    exact allNonneg_dispatch s.store r hwf hnn hr

theorem allNonneg_runRequests (rs : List Request) (s : ServerState)
    (hwf : s.store.wf) (hnn : allNonneg s.store)
    (h : ∀ r ∈ rs, registerNonneg r) :
    allNonneg (runRequests s rs).store := by
  induction rs generalizing s with
  | nil => exact hnn
  | cons r rest ih =>
    exact ih _ (wf_handleRequest s r hwf)
      (allNonneg_handleRequest s r hwf hnn (h r (List.mem_cons_self _ _)))
      (fun r' hr' => h r' (List.mem_cons_of_mem _ hr'))

/-- C2 counterexample: the register route copies the request's `balance`
field without validating its sign, so a single admitted register request
with a negative initial balance reaches a state, built from the empty
initial state by the listed operations, containing an account whose balance
is negative. -/
theorem c2_counterexample :
    ¬ allNonneg (runRequests initState
      [.register (some "a") (some "n") (some (-5))]).store := by decide

/-- C2 (amended): for every state reachable from the empty initial state by
a sequence of register, login, transfer, loan, statement and balance
requests in which every register request carries a non-negative initial
balance (the default being 1000), every account's balance is `≥ 0`. -/
theorem c2_no_negative_balance (rs : List Request)
    (h : ∀ r ∈ rs, registerNonneg r) :
    allNonneg (runRequests initState rs).store :=
  allNonneg_runRequests rs initState (by decide) (by decide) h

theorem c2_no_negative_balance_witness :
    (∀ r ∈ [Request.register (some "alice") (some "A") none,
            Request.register (some "bob") (some "B") (some 0),
            Request.login (some "alice") "tokA",
            Request.transfer (some "tokA") (some "bob") (some 100)],
      registerNonneg r) ∧
    allNonneg (runRequests initState
      [Request.register (some "alice") (some "A") none,
       Request.register (some "bob") (some "B") (some 0),
       Request.login (some "alice") "tokA",
       Request.transfer (some "tokA") (some "bob") (some 100)]).store :=
  ⟨by decide, c2_no_negative_balance
    [Request.register (some "alice") (some "A") none,
     Request.register (some "bob") (some "B") (some 0),
     Request.login (some "alice") "tokA",
     Request.transfer (some "tokA") (some "bob") (some 100)] (by decide)⟩

/-! ### Session registry -/

theorem mem_mapOverwrite {α : Type} {m : List (String × α)} {k : String}
    {v : α} {p : String × α} (h : p ∈ mapOverwrite m k v) :
    p ∈ m ∨ p = (k, v) := by
  induction m with
  | nil => simp [mapOverwrite] at h
  | cons q rest ih =>
    by_cases hq : q.1 = k
    · simp only [mapOverwrite] at h
      rw [if_pos hq] at h
      rcases List.mem_cons.mp h with h | h
      · exact Or.inr h
      · rcases ih h with h' | h'
        · exact Or.inl (List.mem_cons_of_mem _ h')
        · exact Or.inr h'
    · simp only [mapOverwrite] at h
      rw [if_neg hq] at h
      rcases List.mem_cons.mp h with h | h
      · exact Or.inl (h ▸ List.mem_cons_self _ _)
      · rcases ih h with h' | h'
        · exact Or.inl (List.mem_cons_of_mem _ h')
        · exact Or.inr h'

theorem mem_mapSet {α : Type} {m : List (String × α)} {k : String} {v : α}
    {p : String × α} (h : p ∈ mapSet m k v) : p ∈ m ∨ p = (k, v) := by
  unfold mapSet at h
  split at h
  · exact mem_mapOverwrite h
  · rcases List.mem_append.mp h with h | h
    · exact Or.inl h
    · simp only [List.mem_singleton] at h
      exact Or.inr h

theorem mapGet_append_left {α : Type} {m : List (String × α)} {k : String}
    {v : α} (m' : List (String × α)) (h : mapGet m k = some v) :
    mapGet (m ++ m') k = some v := by
  induction m with
  | nil => simp [mapGet] at h
  | cons p rest ih =>
    by_cases hp : p.1 = k
    · simp [mapGet, hp] at h ⊢; exact h
    · simp [mapGet, hp] at h ⊢; exact ih h

theorem mapGet_append_right {α : Type} {m : List (String × α)} {k : String}
    (m' : List (String × α)) (h : mapGet m k = none) :
    mapGet (m ++ m') k = mapGet m' k := by
  induction m with
  | nil => rfl
  | cons p rest ih =>
    by_cases hp : p.1 = k
    · simp [mapGet, hp] at h
    · simp [mapGet, hp] at h ⊢; exact ih h

theorem register_sessions (st : Store) (u n : Option String)
    (b : Option Int) : (register st u n b).1.sessions = st.sessions := by
  unfold register
  split
  · rfl
  · split <;> rfl

theorem transfer_sessions (st : Store) (tk to? : Option String)
    (amt : Option Int) : (transfer st tk to? amt).1.sessions = st.sessions := by
  rcases transfer_cases st tk to? amt with ⟨heq, _⟩ |
    ⟨sid, toU, a, sender, _, _, _, _, _, _, _, _, heq⟩
  · rw [heq]
  · rw [heq]; rfl

theorem loan_sessions (st : Store) (tk : Option String) (amt : Option Int) :
    (loan st tk amt).1.sessions = st.sessions := by
  unfold loan
  split
  · rfl
  · split
    · rfl
    · split <;> rfl

theorem authenticate_none_of_not_has {st : Store} {tok : String}
    (h : mapHas st.sessions tok = false) :
    authenticate st (some tok) = none := by
  show (if tok = "" then none else mapGet st.sessions tok) = none
  by_cases ht : tok = ""
  · rw [if_pos ht]
  · rw [if_neg ht]
    rw [mapHas_eq_isSome] at h
    exact Option.not_isSome_iff_eq_none.mp (by simp [h])

theorem transfer_unauthorized {st : Store} {tk : Option String}
    (h : authenticate st tk = none) (to? : Option String) (amt : Option Int) :
    transfer st tk to? amt = (st, .unauthorized) := by
  simp [transfer, h]

theorem loan_unauthorized {st : Store} {tk : Option String}
    (h : authenticate st tk = none) (amt : Option Int) :
    loan st tk amt = (st, .unauthorized) := by
  simp [loan, h]

theorem statementOp_unauthorized {st : Store} {tk : Option String}
    (h : authenticate st tk = none) :
    statementOp st tk = (st, .unauthorized) := by
  simp [statementOp, h]

theorem balanceOp_unauthorized {st : Store} {tk : Option String}
    (h : authenticate st tk = none) (f : Bool) :
    balanceOp st tk f = (st, .unauthorized) := by
  simp [balanceOp, h]

/-- The generated token of a login request, if any. -/
def loginTokenOf : Request → Option String
  | .login _ g => some g
  | _ => none

theorem sessions_handleRequest (s : ServerState) (r : Request) :
    ∀ p ∈ (handleRequest s r).1.store.sessions,
      p ∈ s.store.sessions ∨ loginTokenOf r = some p.1 := by
  intro p hp
  unfold handleRequest at hp
  by_cases hc : (s.requestCount + 1) % 10 == 0
  · simp only [hc, if_pos] at hp
    exact Or.inl hp
  · simp only [hc, Bool.false_eq_true, if_neg, not_false_iff] at hp
    cases r with
    | register u n b =>
      have hp' : p ∈ (register s.store u n b).1.sessions := hp
      rw [register_sessions s.store u n b] at hp'
      exact Or.inl hp' 
    | login u t =>
      have hp' : p ∈ (login s.store u t).1.sessions := hp
      unfold login at hp'
      split at hp'
      · exact Or.inl hp'
      · split at hp'
        · exact Or.inl hp'
        · simp only at hp'
          rcases mem_mapSet hp' with h | h
          · exact Or.inl h
          · right
            rw [h]
            rfl
    | transfer tk to? amt =>
      have hp' : p ∈ (transfer s.store tk to? amt).1.sessions := hp
      rw [transfer_sessions s.store tk to? amt] at hp'
      exact Or.inl hp' 
    | loan tk amt =>
      have hp' : p ∈ (loan s.store tk amt).1.sessions := hp
      rw [loan_sessions s.store tk amt] at hp'
      exact Or.inl hp' 
    | statement tk =>
      have hp' : p ∈ (statementOp s.store tk).1.sessions := hp
      rw [statementOp_state s.store tk] at hp'
      exact Or.inl hp' 
    | balance tk f =>
      have hp' : p ∈ (balanceOp s.store tk f).1.sessions := hp
      rw [balanceOp_state s.store tk f] at hp'
      exact Or.inl hp' 

theorem sessions_from_logins (rs : List Request) (s : ServerState) :
    ∀ p ∈ (runRequests s rs).store.sessions,
      p ∈ s.store.sessions ∨ ∃ r ∈ rs, loginTokenOf r = some p.1 := by
  induction rs generalizing s with
  | nil => intro p hp; exact Or.inl hp
  | cons r rest ih =>
    intro p hp
    rcases ih (handleRequest s r).1 p hp with h | ⟨r', hr', hr'tok⟩
    · rcases sessions_handleRequest s r p h with h' | h'
      · exact Or.inl h'
      · exact Or.inr ⟨r, List.mem_cons_self _ _, h'⟩
    · exact Or.inr ⟨r', List.mem_cons_of_mem _ hr', hr'tok⟩

/-- C7 counterexample: the login route draws its token from `Math.random`
(modelled as the request's generated-token input) with no collision check,
and `sessions.set` overwrites.  In the run below the token string
`"token_x"` is issued to `alice` (and resolves to her), then a later login
by `bob` generates the same string: the registry silently reassigns it, so
a token issued for account `alice` now resolves to `bob` — the issued token
was neither unique among live sessions nor stable for its lifetime. -/
theorem c7_counterexample :
    authenticate (runRequests initState
      [.register (some "alice") (some "A") none,
       .register (some "bob") (some "B") none,
       .login (some "alice") "token_x"]).store (some "token_x")
      = some "alice" ∧
    (runRequests initState
      [.register (some "alice") (some "A") none,
       .register (some "bob") (some "B") none,
       .login (some "alice") "token_x",
       .login (some "bob") "token_x"]).store.sessions
      = [("token_x", "bob")] ∧
    ¬ authenticate (runRequests initState
      [.register (some "alice") (some "A") none,
       .register (some "bob") (some "B") none,
       .login (some "alice") "token_x",
       .login (some "bob") "token_x"]).store (some "token_x")
      = some "alice" := by decide

/-- C7 (amended): provided the generated token does not collide with a
currently-live session key, a login for an existing account issues it as a
token unique among live sessions: afterwards it resolves to exactly that
account, and every other token resolves as before.  A token that is not a
live session key always fails `Unauthorized` on every account-scoped
operation (transfer, loan, statement, balance), mutating nothing; and in
any run from the initial state, every live session key was issued by some
login request of the run, so a never-issued token is never a live key. -/
theorem c7_session_registry (st : Store) (u t : String)
    (hacct : mapHas st.accounts u = true)
    (hfresh : mapHas st.sessions t = false) (ht : t ≠ "") :
    login st (some u) t =
      ({ st with sessions := st.sessions ++ [(t, u)] }, .token t) ∧
    authenticate { st with sessions := st.sessions ++ [(t, u)] } (some t)
      = some u ∧
    (∀ t', t' ≠ t →
      authenticate { st with sessions := st.sessions ++ [(t, u)] } (some t')
        = authenticate st (some t')) ∧
    (∀ tok, mapHas st.sessions tok = false →
      authenticate st (some tok) = none ∧
      (∀ to? amt, transfer st (some tok) to? amt = (st, .unauthorized)) ∧
      (∀ amt, loan st (some tok) amt = (st, .unauthorized)) ∧
      statementOp st (some tok) = (st, .unauthorized) ∧
      (∀ f, balanceOp st (some tok) f = (st, .unauthorized))) ∧
    (∀ rs, ∀ p ∈ (runRequests initState rs).store.sessions,
      ∃ r ∈ rs, loginTokenOf r = some p.1) := by
  have hnone : mapGet st.sessions t = none := by
    rw [mapHas_eq_isSome] at hfresh
    exact Option.not_isSome_iff_eq_none.mp (by simp [hfresh])
  refine ⟨?_, ?_, ?_, ?_, ?_⟩
  · show (if (!mapHas st.accounts u) = true then (st, Response.notFound)
        else ({ st with sessions := mapSet st.sessions t u }, Response.token t))
      = ({ st with sessions := st.sessions ++ [(t, u)] }, Response.token t)
    rw [if_neg (by simp [hacct]), mapSet_of_not_has _ hfresh]
  · show (if t = "" then none
      else mapGet (st.sessions ++ [(t, u)]) t) = some u
    rw [if_neg ht, mapGet_append_right _ hnone]
    simp [mapGet]
  · intro t' ht'
    show (if t' = "" then none else mapGet (st.sessions ++ [(t, u)]) t')
      = authenticate st (some t')
    by_cases h0 : t' = ""
    · rw [if_pos h0]
      show _ = (if t' = "" then none else mapGet st.sessions t')
      rw [if_pos h0]
    · rw [if_neg h0]
      show _ = (if t' = "" then none else mapGet st.sessions t')
      rw [if_neg h0]
      cases hg : mapGet st.sessions t' with
      | some v => rw [mapGet_append_left _ hg]
      | none =>
        rw [mapGet_append_right _ hg]
        simp [mapGet, Ne.symm ht']
  · intro tok htok
    have hn := authenticate_none_of_not_has htok
    exact ⟨hn, fun to? amt => transfer_unauthorized hn to? amt,
      fun amt => loan_unauthorized hn amt, statementOp_unauthorized hn,
      fun f => balanceOp_unauthorized hn f⟩
  · intro rs p hp
    rcases sessions_from_logins rs initState p hp with h | h
    · simp [initState] at h
    · exact h

theorem c7_session_registry_witness :
    login stW (some "alice") "tokC" =
      ({ stW with sessions := stW.sessions ++ [("tokC", "alice")] },
        .token "tokC") ∧
    authenticate { stW with sessions := stW.sessions ++ [("tokC", "alice")] }
      (some "tokC") = some "alice" ∧
    authenticate stW (some "never_issued") = none := by
  have h := c7_session_registry stW "alice" "tokC" (by decide) (by decide)
    (by decide)
  exact ⟨h.1, h.2.1, (h.2.2.2.1 "never_issued" (by decide)).1⟩

/-! ### Concurrent transfers on the event loop

The transfer handler is `async`: it runs its validation (lines 161–177)
synchronously, then awaits a 500 ms timer, then runs its commit
(lines 179–184) synchronously.  On Node's single-threaded event loop each
synchronous section is atomic and the awaited delay is the only point where
another request's handler can interleave.  We model an in-flight transfer
as a two-step process over the shared store and quantify over all
interleavings of two such transfers. -/

/-- An authenticated in-flight transfer: resolved sender, recipient field
and amount field of the request body. -/
structure TDesc where
  sender : String
  recip : String
  amt : Int
  deriving Repr, DecidableEq

/-- Progress of one in-flight transfer across event-loop turns. -/
inductive Phase where
  | ready
  | validated
  | committed
  | failed (e : Response)
  deriving Repr, DecidableEq

/-- One event-loop turn of an in-flight transfer: from `ready` it runs the
validation section against the current store (failing exactly as the route
does), from `validated` it runs the commit section; finished transfers do
nothing. -/
def stepTransfer (st : Store) (t : TDesc) : Phase → Store × Phase
  | .ready =>
    match transferValidate st t.sender (some t.recip) (some t.amt) with
    | some e => (st, .failed e)
    | none => (st, .validated)
  | .validated => (transferCommit st t.sender t.recip t.amt, .committed)
  | p => (st, p)

/-- The shared store plus the progress of two concurrent transfers. -/
structure CState where
  store : Store
  p1 : Phase
  p2 : Phase
  deriving Repr, DecidableEq

/-- Schedule one event-loop turn: `true` runs the first transfer's next
section, `false` the second's. -/
def cstep (t1 t2 : TDesc) (s : CState) : Bool → CState
  | true =>
    { store := (stepTransfer s.store t1 s.p1).1,
      p1 := (stepTransfer s.store t1 s.p1).2, p2 := s.p2 }
  | false =>
    { store := (stepTransfer s.store t2 s.p2).1,
      p1 := s.p1, p2 := (stepTransfer s.store t2 s.p2).2 }

/-- Run an arbitrary interleaving of the two transfers. -/
def crun (t1 t2 : TDesc) (s : CState) : List Bool → CState
  | [] => s
  | b :: bs => crun t1 t2 (cstep t1 t2 s b) bs

/-- A store holding exactly two accounts. -/
def twoAccountStore (A B nA nB : String) (x y : Int)
    (lA lB : List Transaction) (sess : List (String × String)) : Store :=
  ⟨[(A, ⟨nA, x, lA⟩), (B, ⟨nB, y, lB⟩)], sess⟩

/-- What a finished transfer contributes to the flow from its sender to its
recipient: its amount once committed, nothing before. -/
def contrib (a : Int) : Phase → Int
  | .committed => a
  | _ => 0

/-- Invariant of the A→B / B→A race: the store always holds exactly the two
accounts, each balance is the initial value adjusted by the committed flows,
and a finished-but-failed transfer only ever failed with
`insufficientFunds`. -/
def RaceInv (A B : String) (x y a : Int) (sess : List (String × String))
    (s : CState) : Prop :=
  ∃ accA accB,
    s.store.accounts = [(A, accA), (B, accB)] ∧
    s.store.sessions = sess ∧
    accA.balance = x - contrib a s.p1 + contrib a s.p2 ∧
    accB.balance = y + contrib a s.p1 - contrib a s.p2 ∧
    (∀ e, s.p1 = .failed e → e = .insufficientFunds) ∧
    (∀ e, s.p2 = .failed e → e = .insufficientFunds)

theorem validate_first {A B : String} {accA accB : Account} {st : Store}
    {a : Int} (hacc : st.accounts = [(A, accA), (B, accB)]) (hAB : A ≠ B)
    (hB : B ≠ "") (ha : 0 < a) :
    transferValidate st A (some B) (some a) =
      (if accA.balance < a then some .insufficientFunds else none) := by
  unfold transferValidate
  rw [hacc]
  simp [mapHas, mapGet, jsTruthyStr, jsTruthyInt, hAB, hB, ha.ne',
    not_le.mpr ha]

theorem validate_second {A B : String} {accA accB : Account} {st : Store}
    {a : Int} (hacc : st.accounts = [(A, accA), (B, accB)]) (hAB : A ≠ B)
    (hA : A ≠ "") (ha : 0 < a) :
    transferValidate st B (some A) (some a) =
      (if accB.balance < a then some .insufficientFunds else none) := by
  unfold transferValidate
  rw [hacc]
  simp [mapHas, mapGet, jsTruthyStr, jsTruthyInt, hAB, Ne.symm hAB, hA,
    ha.ne', not_le.mpr ha]

theorem commit_first {A B : String} {accA accB : Account} {st : Store}
    (a : Int) (hacc : st.accounts = [(A, accA), (B, accB)]) (hAB : A ≠ B) :
    (transferCommit st A B a).accounts =
      [(A, { accA with
          balance := accA.balance - a,
          transactions := accA.transactions ++
            [(⟨"debit", a, some B⟩ : Transaction)] }),
       (B, { accB with
          balance := accB.balance + a,
          transactions := accB.transactions ++
            [(⟨"credit", a, some A⟩ : Transaction)] })] := by
  unfold transferCommit
  simp only
  rw [hacc]
  simp [mapUpdate, hAB, Ne.symm hAB]

theorem commit_second {A B : String} {accA accB : Account} {st : Store}
    (a : Int) (hacc : st.accounts = [(A, accA), (B, accB)]) (hAB : A ≠ B) :
    (transferCommit st B A a).accounts =
      [(A, { accA with
          balance := accA.balance + a,
          transactions := accA.transactions ++
            [(⟨"credit", a, some B⟩ : Transaction)] }),
       (B, { accB with
          balance := accB.balance - a,
          transactions := accB.transactions ++
            [(⟨"debit", a, some A⟩ : Transaction)] })] := by
  unfold transferCommit
  simp only
  rw [hacc]
  simp [mapUpdate, hAB, Ne.symm hAB]

theorem raceInv_cstep {A B : String} {x y a : Int}
    {sess : List (String × String)} (hAB : A ≠ B) (hA : A ≠ "")
    (hB : B ≠ "") (ha : 0 < a) {s : CState}
    (hinv : RaceInv A B x y a sess s) (b : Bool) :
    RaceInv A B x y a sess (cstep ⟨A, B, a⟩ ⟨B, A, a⟩ s b) := by
  obtain ⟨accA, accB, hacc, hsess, hbA, hbB, hf1, hf2⟩ := hinv
  cases b with
  | true =>
    cases hp : s.p1 with
    | ready =>
      have hval : transferValidate s.store A (some B) (some a) =
          (if accA.balance < a then some .insufficientFunds else none) :=
        validate_first hacc hAB hB ha
      by_cases hlt : accA.balance < a
      · have hstep : cstep ⟨A, B, a⟩ ⟨B, A, a⟩ s true =
            ⟨s.store, .failed .insufficientFunds, s.p2⟩ := by
          simp [cstep, stepTransfer, hp, hval, hlt]
        rw [hstep]
        exact ⟨accA, accB, hacc, hsess,
          by simpa [contrib, hp] using hbA,
          by simpa [contrib, hp] using hbB,
          fun e he => by injection he with h; exact h.symm, hf2⟩
      · have hstep : cstep ⟨A, B, a⟩ ⟨B, A, a⟩ s true =
            ⟨s.store, .validated, s.p2⟩ := by
          simp [cstep, stepTransfer, hp, hval, hlt]
        rw [hstep]
        exact ⟨accA, accB, hacc, hsess,
          by simpa [contrib, hp] using hbA,
          by simpa [contrib, hp] using hbB,
          fun e he => by simp at he, hf2⟩
    | validated =>
      have hstep : cstep ⟨A, B, a⟩ ⟨B, A, a⟩ s true =
          ⟨transferCommit s.store A B a, .committed, s.p2⟩ := by
        simp [cstep, stepTransfer, hp]
      rw [hstep]
      rw [hp] at hbA hbB
      refine ⟨_, _, commit_first a hacc hAB, ?_, ?_, ?_,
        fun e he => by simp at he, hf2⟩
      · rw [transferCommit_sessions]; exact hsess
      · simp only [contrib] at hbA ⊢
        omega
      · simp only [contrib] at hbB ⊢
        omega
    | committed =>
      have hstep : cstep ⟨A, B, a⟩ ⟨B, A, a⟩ s true =
          ⟨s.store, .committed, s.p2⟩ := by
        simp [cstep, stepTransfer, hp]
      rw [hstep]
      exact ⟨accA, accB, hacc, hsess, by simpa [hp] using hbA,
        by simpa [hp] using hbB, fun e he => by simp at he, hf2⟩
    | failed e0 =>
      have hstep : cstep ⟨A, B, a⟩ ⟨B, A, a⟩ s true =
          ⟨s.store, .failed e0, s.p2⟩ := by
        simp [cstep, stepTransfer, hp]
      rw [hstep]
      exact ⟨accA, accB, hacc, hsess, by simpa [hp] using hbA,
        by simpa [hp] using hbB,
        fun e he => by injection he with h; exact h ▸ hf1 e0 hp, hf2⟩
  | false =>
    cases hp : s.p2 with
    | ready =>
      have hval : transferValidate s.store B (some A) (some a) =
          (if accB.balance < a then some .insufficientFunds else none) :=
        validate_second hacc hAB hA ha
      by_cases hlt : accB.balance < a
      · have hstep : cstep ⟨A, B, a⟩ ⟨B, A, a⟩ s false =
            ⟨s.store, s.p1, .failed .insufficientFunds⟩ := by
          simp [cstep, stepTransfer, hp, hval, hlt]
        rw [hstep]
        exact ⟨accA, accB, hacc, hsess,
          by simpa [contrib, hp] using hbA,
          by simpa [contrib, hp] using hbB, hf1,
          fun e he => by injection he with h; exact h.symm⟩
      · have hstep : cstep ⟨A, B, a⟩ ⟨B, A, a⟩ s false =
            ⟨s.store, s.p1, .validated⟩ := by
          simp [cstep, stepTransfer, hp, hval, hlt]
        rw [hstep]
        exact ⟨accA, accB, hacc, hsess,
          by simpa [contrib, hp] using hbA,
          by simpa [contrib, hp] using hbB, hf1,
          fun e he => by simp at he⟩
    | validated =>
      have hstep : cstep ⟨A, B, a⟩ ⟨B, A, a⟩ s false =
          ⟨transferCommit s.store B A a, s.p1, .committed⟩ := by
        simp [cstep, stepTransfer, hp]
      rw [hstep]
      rw [hp] at hbA hbB
      refine ⟨_, _, commit_second a hacc hAB, ?_, ?_, ?_, hf1,
        fun e he => by simp at he⟩
      · rw [transferCommit_sessions]; exact hsess
      · simp only [contrib] at hbA ⊢
        omega
      · simp only [contrib] at hbB ⊢
        omega
    | committed =>
      have hstep : cstep ⟨A, B, a⟩ ⟨B, A, a⟩ s false =
          ⟨s.store, s.p1, .committed⟩ := by
        simp [cstep, stepTransfer, hp]
      rw [hstep]
      exact ⟨accA, accB, hacc, hsess, by simpa [hp] using hbA,
        by simpa [hp] using hbB, hf1, fun e he => by simp at he⟩
    | failed e0 =>
      have hstep : cstep ⟨A, B, a⟩ ⟨B, A, a⟩ s false =
          ⟨s.store, s.p1, .failed e0⟩ := by
        simp [cstep, stepTransfer, hp]
      rw [hstep]
      exact ⟨accA, accB, hacc, hsess, by simpa [hp] using hbA,
        by simpa [hp] using hbB, hf1,
        fun e he => by injection he with h; exact h ▸ hf2 e0 hp⟩

theorem raceInv_crun {A B : String} {x y a : Int}
    {sess : List (String × String)} (hAB : A ≠ B) (hA : A ≠ "")
    (hB : B ≠ "") (ha : 0 < a) {s : CState}
    (hinv : RaceInv A B x y a sess s) (sched : List Bool) :
    RaceInv A B x y a sess (crun ⟨A, B, a⟩ ⟨B, A, a⟩ s sched) := by
  induction sched generalizing s with
  | nil => exact hinv
  | cons b bs ih => exact ih (raceInv_cstep hAB hA hB ha hinv b)

/-- C9: for two concurrent transfers A→B and B→A of the same amount over
any interleaving of their event-loop turns (each transfer is atomic
validation, the awaited delay, then atomic commit — the only interleaving
point the single-threaded event loop allows), the sum of the two balances
equals the initial sum in the state reached by every schedule — and since
each schedule's intermediate states are the final states of its prefixes,
which are themselves quantified schedules, no interleaving ever exposes a
state to a third reader where money is lost or duplicated or a sender is
debited without the recipient credited; a transfer that finishes without
committing has failed precisely with `insufficientFunds`; and if both
commit, both balances end exactly at their initial values (net zero). -/
theorem c9_concurrent_transfers (A B nA nB : String)
    (lA lB : List Transaction) (sess : List (String × String))
    (x y a : Int) (hAB : A ≠ B) (hA : A ≠ "") (hB : B ≠ "") (ha : 0 < a)
    (sched : List Bool) :
    total (crun ⟨A, B, a⟩ ⟨B, A, a⟩
      ⟨twoAccountStore A B nA nB x y lA lB sess, .ready, .ready⟩
      sched).store = x + y ∧
    (∀ e, (crun ⟨A, B, a⟩ ⟨B, A, a⟩
      ⟨twoAccountStore A B nA nB x y lA lB sess, .ready, .ready⟩
      sched).p1 = .failed e → e = .insufficientFunds) ∧
    (∀ e, (crun ⟨A, B, a⟩ ⟨B, A, a⟩
      ⟨twoAccountStore A B nA nB x y lA lB sess, .ready, .ready⟩
      sched).p2 = .failed e → e = .insufficientFunds) ∧
    ((crun ⟨A, B, a⟩ ⟨B, A, a⟩
        ⟨twoAccountStore A B nA nB x y lA lB sess, .ready, .ready⟩
        sched).p1 = .committed →
      (crun ⟨A, B, a⟩ ⟨B, A, a⟩
        ⟨twoAccountStore A B nA nB x y lA lB sess, .ready, .ready⟩
        sched).p2 = .committed →
      (mapGet (crun ⟨A, B, a⟩ ⟨B, A, a⟩
        ⟨twoAccountStore A B nA nB x y lA lB sess, .ready, .ready⟩
        sched).store.accounts A).map Account.balance = some x ∧
      (mapGet (crun ⟨A, B, a⟩ ⟨B, A, a⟩
        ⟨twoAccountStore A B nA nB x y lA lB sess, .ready, .ready⟩
        sched).store.accounts B).map Account.balance = some y) := by
  have hinv0 : RaceInv A B x y a sess
      ⟨twoAccountStore A B nA nB x y lA lB sess, .ready, .ready⟩ :=
    ⟨⟨nA, x, lA⟩, ⟨nB, y, lB⟩, rfl, rfl, by simp [contrib],
      by simp [contrib], fun e he => by simp at he,
      fun e he => by simp at he⟩
  obtain ⟨accA, accB, hacc, hsess, hbA, hbB, hf1, hf2⟩ :=
    raceInv_crun hAB hA hB ha hinv0 sched
  refine ⟨?_, hf1, hf2, ?_⟩
  · unfold total
    rw [hacc]
    simp only [List.map_cons, List.map_nil, List.sum_cons, List.sum_nil]
    rw [hbA, hbB]
    ring
  · intro h1 h2
    rw [h1, h2] at hbA hbB
    simp only [contrib] at hbA hbB
    rw [hacc]
    refine ⟨?_, ?_⟩
    · have hx : accA.balance = x := by omega
      simp [mapGet, hx]
    · have hy : accB.balance = y := by omega
      simp [mapGet, hAB, hy]

theorem c9_concurrent_transfers_witness :
    total (crun ⟨"alice", "bob", 300⟩ ⟨"bob", "alice", 300⟩
      ⟨twoAccountStore "alice" "bob" "A" "B" 1000 1000 [] [] [],
        .ready, .ready⟩
      [true, false, true, false]).store = 1000 + 1000 :=
  (c9_concurrent_transfers "alice" "bob" "A" "B" [] [] [] 1000 1000 300
    (by decide) (by decide) (by decide) (by decide)
    [true, false, true, false]).1
